import Mathlib

/-!
Verification of the token holder distribution refresh engine
(`src/services/backend/static/token_holdings/src`), shallowly embedded in Lean.

Modelling conventions:
* Python `Decimal` arithmetic is embedded as exact rational arithmetic (`ℚ`).
  The code runs under the default `Decimal` context (28 significant digits),
  which is exact for every quantity the engine manipulates at realistic sizes
  (the code itself warns above 10_000_000 accounts), so `ℚ` is a faithful model.
* Holder dictionaries are embedded as a typed `Holder` record: the fetcher only
  ever produces `account_id`/`balance` (plus optional USD enrichment), so the
  source's defensive branches for non-numeric dict values are unrepresentable.
* Database effects are embedded as explicit state passing over a `DB` record;
  a run returns the sequence of committed snapshots (what concurrent readers
  can observe), with SQLAlchemy transaction semantics: session mutations become
  visible only at `commit()`, and `rollback()` discards all pending mutations.
-/

namespace TokenHoldings

/-- A holder record as produced by `fetch_token_holders`: the dict
`{"account_id": ..., "balance": ...}`, optionally enriched by
`TokenFilterService` with `usd_value` and `price_usd` keys. -/
structure Holder where
  account_id : String
  balance : ℚ
  usd_value : Option ℚ := none
  price_usd : Option ℚ := none
deriving Repr, DecidableEq

/-- A row emitted by `calculate_top_holders_and_percentiles`: the input holder
dict merged with the keys `rank`, `percentile`, `is_top_holder`,
`is_percentile_marker`. -/
structure StatRow where
  holder : Holder
  rank : Nat
  percentile : Option Nat
  is_top_holder : Bool
  is_percentile_marker : Bool
deriving Repr, DecidableEq

/-- The comparison used by `sorted(holders, key=lambda x: x["balance"], reverse=True)`:
`a` may precede `b` when `a`'s balance is at least `b`'s. -/
def holderGE (a b : Holder) : Prop := b.balance ≤ a.balance

instance : DecidableRel holderGE :=
  fun a b => inferInstanceAs (Decidable (b.balance ≤ a.balance))

/-- `sorted(holders, key=lambda x: x["balance"], reverse=True)`.  Python's
`sorted` is a stable sort; `List.insertionSort` with the non-strict
descending relation is also stable, and a stable sort with respect to a
total preorder is unique, so the two agree on every input. -/
def sortHoldersDesc (holders : List Holder) : List Holder :=
  holders.insertionSort holderGE

/-- `int(x.quantize(Decimal(1), rounding=ROUND_DOWN))`: `ROUND_DOWN` truncates
toward zero (floor for nonnegative, ceiling for negative values). -/
def decTrunc (q : ℚ) : ℤ := if 0 ≤ q then ⌊q⌋ else ⌈q⌉

/-- The percentile position computation of
`calculate_top_holders_and_percentiles`:
`exact_position = (percentile / 100) * total_accounts - 1` in exact `Decimal`
arithmetic, truncated with `ROUND_DOWN`, then
`position = max(0, min(position, total_accounts - 1))`. -/
def percentilePosition (total p : Nat) : Nat :=
  (max 0 (min (decTrunc ((p : ℚ) / 100 * (total : ℚ) - 1)) ((total : ℤ) - 1))).toNat

/-- `for rank, holder in enumerate(sorted_holders[:top_count], 1)`: attach
ascending ranks starting at `r` and the top-holder flags. -/
def rankRows : Nat → List Holder → List StatRow
  | _, [] => []
  | r, h :: t => ⟨h, r, none, true, false⟩ :: rankRows (r + 1) t

/-- The top-holder half of the engine: `top_count = min(10, total_accounts)`,
slice, and enumerate from 1. -/
def topHolderRows (sorted : List Holder) : List StatRow :=
  rankRows 1 (sorted.take (min 10 sorted.length))

/-- `range(99, 0, -1)`: the percentiles 99 down to 1. -/
def descPercentiles : List Nat := (List.range 99).map (fun i => 99 - i)

/-- Placeholder holder used by `List.getD`; every indexing the engine performs
is proved in bounds, so this value is never actually selected. -/
def defaultHolder : Holder := ⟨"", 0, none, none⟩

/-- One percentile marker row: `sorted_holders[position]` with
`rank = position + 1` and `percentile = p`. -/
def percentileRow (sorted : List Holder) (p : Nat) : StatRow :=
  ⟨sorted.getD (percentilePosition sorted.length p) defaultHolder,
   percentilePosition sorted.length p + 1, some p, false, true⟩

/-- The percentile half of the engine: one marker per percentile, 99 down
to 1. -/
def percentileRows (sorted : List Holder) : List StatRow :=
  descPercentiles.map (percentileRow sorted)

/-- `HederaTokenFetcher.calculate_top_holders_and_percentiles`: returns
`([], [])` on empty input, otherwise sorts descending by balance and produces
the top-holder rows and the 99 percentile marker rows. -/
def calculate_top_holders_and_percentiles (holders : List Holder) :
    List StatRow × List StatRow :=
  if holders.isEmpty then ([], [])
  else (topHolderRows (sortHoldersDesc holders), percentileRows (sortHoldersDesc holders))

/-- A family of concrete inputs: 1000 holders with pairwise-distinct strictly
descending balances `1000, 999, …, 1`. -/
def acct (i : Nat) : String := "0.0." ++ toString i

/-- Holder `i` of the descending 1000-holder input. -/
def mkDescHolder (i : Nat) : Holder := ⟨acct i, ((1000 - i : Nat) : ℚ), none, none⟩

/-- 1000 holders with distinct, strictly descending balances. -/
def hs1000 : List Holder := (List.range 1000).map mkDescHolder

/-- A small concrete, unsorted holder list used as a test fixture. -/
def hsSmall : List Holder :=
  [⟨"0.0.100", 5, none, none⟩, ⟨"0.0.101", 3, none, none⟩, ⟨"0.0.102", 4, none, none⟩]

/-! ### TokenFilterService (`services/token_filter_service.py`)

Both methods begin by asking the pricing service for the token's USD price;
we embed that call's result as an `Option ℚ` argument (`none` models a `None`
return).  Python's `if not price_usd` is also taken when the price is
`Decimal("0")`, so the zero price is modelled explicitly. -/

/-- The enrichment step of the loop bodies: `holder.copy()` plus
`usd_value = balance * price_usd` and the price used.  The source converts
both to `float` for storage in the dict; conversion is modelled exactly. -/
def enrichHolder (price : ℚ) (h : Holder) : Holder :=
  { h with usd_value := some (h.balance * price), price_usd := some price }

/-- `TokenFilterService.calculate_usd_values`: if the price is unavailable
(`None`) or zero (falsy in Python), return the input list unchanged; otherwise
enrich every holder.  (The source's skip branches for `None`/non-numeric
balances cannot fire on fetcher-produced records, whose balances are always
`Decimal`.) -/
def calculate_usd_values (price : Option ℚ) (holders : List Holder) : List Holder :=
  match price with
  | none => holders
  | some p => if p = 0 then holders else holders.map (enrichHolder p)

/-- `TokenFilterService.filter_holders_by_usd_value`: falsy `min_usd_value`
or unavailable/zero price returns the input unchanged; otherwise holders whose
USD value is below the floor are dropped and the rest enriched. -/
def filter_holders_by_usd_value (price : Option ℚ) (min_usd_value : Option ℚ)
    (holders : List Holder) : List Holder :=
  match min_usd_value with
  | none => holders
  | some m =>
    if m = 0 then holders
    else
      match price with
      | none => holders
      | some p =>
        if p = 0 then holders
        else (holders.filter (fun h => decide (¬ h.balance * p < m))).map (enrichHolder p)

end TokenHoldings

namespace Pricing

/-! ### SaucerSwapPricingService (`services/pricing_service.py`)

A raw API token entry is a JSON object; the validator only inspects the `id`,
`priceUsd` and `decimals` fields, so the embedding records, for each field,
whether it is present and whether it parses:
* `id = none` models a missing or non-string `id`; `some s` a string value.
* `priceUsd = none` models a missing field, `some none` a value `Decimal`
  cannot parse, `some (some q)` a value parsing to `q`.
* `decimals` likewise with `int(...)`. -/

structure TokenEntry where
  id : Option String
  priceUsd : Option (Option ℚ)
  decimals : Option (Option ℤ)
deriving Repr, DecidableEq

/-- `SaucerSwapPricingService._is_valid_token_data`.  Note the source only
*warns* when `decimals` is outside `[0, 50]` ("Reasonable bounds") and still
falls through to `return True`; only an unparseable `decimals` is rejected. -/
def isValidTokenData (t : TokenEntry) : Bool :=
  match t.id with
  | none => false
  | some i =>
    if i = "" then false
    else
      match t.priceUsd with
      | none => false
      | some none => false
      | some (some q) =>
        if q < 0 then false
        else
          match t.decimals with
          | none => false
          | some none => false
          | some (some _) => true

/-- The cache entry built from one response item inside
`refresh_price_cache`'s loop: invalid entries are skipped (`continue`), valid
ones are stored under their `id` with the parsed `price_usd`. -/
def entryKeyPrice (t : TokenEntry) : Option (String × ℚ) :=
  if isValidTokenData t then
    match t.id, t.priceUsd with
    | some i, some (some q) => some (i, q)
    | _, _ => none
  else none

/-- The `new_cache` accumulated by `refresh_price_cache` over the response. -/
def buildCache (entries : List TokenEntry) : List (String × ℚ) :=
  entries.filterMap entryKeyPrice

/-- The pricing-service state: `_price_cache` plus the TTL test
`_is_cache_valid()` (abstracted to the `Bool` it evaluates to). -/
structure PriceState where
  cache : List (String × ℚ)
  cacheValid : Bool
deriving Repr, DecidableEq

/-- `SaucerSwapPricingService.refresh_price_cache`.  `resp = none` models a
request that returned no data (network failure / exhausted retries / raised).
When the rebuilt cache is empty the source keeps the old cache and returns
`False if self._price_cache else True`. -/
def refresh_price_cache (st : PriceState) (resp : Option (List TokenEntry)) :
    PriceState × Bool :=
  match resp with
  | none => (st, false)
  | some entries =>
    if (buildCache entries).isEmpty then (st, st.cache.isEmpty)
    else ({ cache := buildCache entries, cacheValid := true }, true)

/-- `self._price_cache.get(token_id)` followed by the `price_usd` lookup. -/
def lookupPrice (cache : List (String × ℚ)) (tid : String) : Option ℚ :=
  (cache.find? (fun e => e.1 = tid)).map (fun e => e.2)

/-- `SaucerSwapPricingService.get_token_price_usd`: HBAR (`0.0.0`) is
special-cased (`hbarPrice` abstracts `get_hbar_price_usd()`); otherwise an
invalid cache triggers a refresh and a failed refresh returns `None`. -/
def get_token_price_usd (hbarPrice : Option ℚ) (st : PriceState)
    (resp : Option (List TokenEntry)) (tid : String) : PriceState × Option ℚ :=
  if tid = "0.0.0" then (st, hbarPrice)
  else if st.cacheValid then (st, lookupPrice st.cache tid)
  else
    if (refresh_price_cache st resp).2 then
      ((refresh_price_cache st resp).1,
       lookupPrice (refresh_price_cache st resp).1.cache tid)
    else ((refresh_price_cache st resp).1, none)

/-- A stale state: a non-empty `_price_cache` whose TTL has expired. -/
def staleState : PriceState := ⟨[("0.0.5", 5)], false⟩

/-- A syntactically valid entry whose `decimals` (99) is far outside the
`[0, 50]` bounds the validator's comment announces. -/
def bigDecimalsEntry : TokenEntry := ⟨some "0.0.1", some (some 1), some (some 99)⟩

end Pricing

namespace Refresh

open TokenHoldings

/-! ### Refresh orchestrator (`HederaTokenFetcher.refresh_token_data`)

The persistent stores are embedded as a `DB` record; SQLAlchemy session
semantics are modelled by letting a run return the sequence of *committed*
snapshots (the only states a concurrent reader can observe).  Mutations made
inside the session become visible at the next `commit()`; `rollback()`
discards all pending mutations, so a transaction that fails at any point
(the delete, the bulk insert, or the commit itself) leaves the committed
state untouched — all three failure points are modelled by `swapFail = true`.

We model the configuration without USD pricing (`filter_service is None`):
fetched holders carry no USD enrichment and `price_usd_at_refresh` is the
`price_usd or Decimal("0")` fallback, i.e. `0`. -/

/-- The `token_metadata` row (fields the orchestrator reads or writes;
timestamps are omitted as no claim concerns them). -/
structure Metadata where
  token_symbol : String
  token_id : String
  decimals : Option Nat := none
  refresh_in_progress : Bool := false
  last_refresh_success : Option Bool := none
  total_accounts_fetched : Option Nat := none
  error_message : Option String := none
deriving Repr, DecidableEq

/-- A `token_holdings` row. -/
structure Holding where
  token_symbol : String
  account_id : String
  balance : ℚ
  balance_rank : Nat
  percentile_rank : Option Nat
  is_top_holder : Bool
  is_percentile_marker : Bool
  usd_value : ℚ
  price_usd_at_refresh : ℚ
  refresh_batch_id : Nat
deriving Repr, DecidableEq

/-- A `refresh_log` row (append-only audit log). -/
structure LogRow where
  token_symbol : String
  operation : String
  message : Option String
deriving Repr, DecidableEq

/-- The committed database state visible to readers. -/
structure DB where
  metadata : List Metadata
  holdings : List Holding
  logs : List LogRow
deriving Repr, DecidableEq

/-- `db_session.query(TokenMetadata).filter_by(token_symbol=...).first()`. -/
def findMeta (db : DB) (tok : String) : Option Metadata :=
  db.metadata.find? (fun m => m.token_symbol = tok)

/-- Write back the (unique) metadata row for `tok`, or add it if absent. -/
def putMeta (db : DB) (tok : String) (m : Metadata) : DB :=
  match findMeta db tok with
  | some _ =>
    { db with
      metadata := db.metadata.map (fun m0 => if m0.token_symbol = tok then m else m0) }
  | none => { db with metadata := db.metadata ++ [m] }

/-- `_log_operation`: add one audit row and commit. -/
def addLog (db : DB) (tok op : String) (msg : Option String) : DB :=
  { db with logs := db.logs ++ [⟨tok, op, msg⟩] }

/-- One raw balance entry of a mirror-node page. -/
structure RawBalance where
  account : String
  balance : Nat
deriving Repr, DecidableEq

/-- One mirror-node page: its `balances` array and whether a `links.next`
cursor is present. -/
structure Page where
  balances : List RawBalance
  hasNext : Bool
deriving Repr, DecidableEq

/-- The per-page holder conversion of `fetch_token_holders`:
`balance = Decimal(raw_balance) / 10 ** decimals`. -/
def pageHolders (decimals : Nat) (pg : Page) : List Holder :=
  pg.balances.map (fun rb => ⟨rb.account, (rb.balance : ℚ) / 10 ^ decimals, none, none⟩)

/-- The page loop of `HederaTokenFetcher.fetch_token_holders`
(`max_accounts=None`, no USD filtering).  The input is the scripted sequence
of page-request outcomes: `none` models `_make_request_with_retry` returning
`None` (non-retryable error or exhausted retry budget), upon which the loop
prints "Failed to fetch data, stopping" and `break`s — *keeping* the holders
accumulated so far.  A missing `links.next` ends the loop normally. -/
def fetch_token_holders (decimals : Nat) : List (Option Page) → List Holder
  | [] => []
  | none :: _ => []
  | some pg :: rest =>
    pageHolders decimals pg ++
      (if pg.hasNext then fetch_token_holders decimals rest else [])

/-- A top-holder `TokenHolding` row as built in `refresh_token_data`. -/
def topHolding (tok : String) (batch : Nat) (r : StatRow) : Holding :=
  ⟨tok, r.holder.account_id, r.holder.balance, r.rank, none, true, false,
   (r.holder.usd_value).getD 0, 0, batch⟩

/-- A percentile-marker `TokenHolding` row as built in `refresh_token_data`. -/
def percHolding (tok : String) (batch : Nat) (r : StatRow) : Holding :=
  ⟨tok, r.holder.account_id, r.holder.balance, r.rank, r.percentile, false, true,
   (r.holder.usd_value).getD 0, 0, batch⟩

/-- `new_holdings`: all rows prepared in memory before any storage mutation. -/
def newHoldings (tok : String) (batch : Nat) (tops percs : List StatRow) :
    List Holding :=
  tops.map (topHolding tok batch) ++ percs.map (percHolding tok batch)

/-- The delete-old + insert-new pair executed inside the swap transaction. -/
def swapHoldings (db : DB) (tok : String) (rows : List Holding) : DB :=
  { db with
    holdings := (db.holdings.filter (fun h => decide (¬ h.token_symbol = tok))) ++ rows }

/-- Metadata mutation at `Starting`: `refresh_in_progress=True`, decimals
stored, error cleared. -/
def startedMeta (m : Metadata) (decimals : Nat) : Metadata :=
  { m with decimals := some decimals, refresh_in_progress := true,
           error_message := none }

/-- Metadata mutation on the failure path. -/
def failedMeta (m : Metadata) (err : String) : Metadata :=
  { m with refresh_in_progress := false, last_refresh_success := some false,
           error_message := some err }

/-- Metadata mutation on success. -/
def completedMeta (m : Metadata) (count : Nat) : Metadata :=
  { m with refresh_in_progress := false, last_refresh_success := some true,
           total_accounts_fetched := some count }

/-- The result of one `refresh_token_data` invocation: the final committed
state, the ordered sequence of committed snapshots the run produced, and the
boolean return value. -/
structure RunResult where
  final : DB
  trace : List DB
  ok : Bool
deriving Repr, DecidableEq

/-- `HederaTokenFetcher.refresh_token_data`, over the committed-snapshot
model.  `pages` scripts the mirror-node responses; `swapFail = true` injects
a storage failure inside the atomic swap transaction (the `except` branch
that calls `db_session.rollback()`).

The paths, in source order:
* metadata already `refresh_in_progress` → `ValueError` raised *before* the
  local `metadata` variable is assigned, so the handler only logs the error
  (one commit) and returns `False`;
* otherwise the started metadata is committed, the `fetch_started` log row is
  committed, and the holders are fetched;
* zero holders → `ValueError("No holders data fetched")` → failure metadata
  committed, error logged, `False`;
* swap failure → rollback (pending delete+insert discarded), failure metadata
  committed, error logged, `False`;
* success → delete+insert+metadata committed atomically, `fetch_completed`
  logged, `True`. -/
def refresh_token_data (db0 : DB) (tok tid : String) (decimals : Nat)
    (pages : List (Option Page)) (batch : Nat) (swapFail : Bool) : RunResult :=
  if ((findMeta db0 tok).map (fun m => m.refresh_in_progress)).getD false then
    ⟨addLog db0 tok "error" (some "Refresh already in progress"),
     [addLog db0 tok "error" (some "Refresh already in progress")], false⟩
  else
    let m1 := startedMeta ((findMeta db0 tok).getD ⟨tok, tid, none, false, none, none, none⟩) decimals
    let db1 := putMeta db0 tok m1
    let db2 := addLog db1 tok "fetch_started" none
    let holders := fetch_token_holders decimals pages
    if holders.isEmpty then
      let db3 := putMeta db2 tok (failedMeta m1 "No holders data fetched")
      let db4 := addLog db3 tok "error" (some "No holders data fetched")
      ⟨db4, [db1, db2, db3, db4], false⟩
    else
      let rows := newHoldings tok batch
        (calculate_top_holders_and_percentiles holders).1
        (calculate_top_holders_and_percentiles holders).2
      if swapFail then
        let db3 := putMeta db2 tok (failedMeta m1 "Database operation failed")
        let db4 := addLog db3 tok "error" (some "Database operation failed")
        ⟨db4, [db1, db2, db3, db4], false⟩
      else
        let db3 := putMeta (swapHoldings db2 tok rows) tok (completedMeta m1 holders.length)
        let db4 := addLog db3 tok "fetch_completed" none
        ⟨db4, [db1, db2, db3, db4], true⟩

/-- Concrete fixture: an empty database. -/
def emptyDB : DB := ⟨[], [], []⟩

/-- Concrete fixture: a database holding a committed snapshot for `TOK` and a
metadata row not in progress. -/
def snapshotDB : DB :=
  ⟨[⟨"TOK", "0.0.1", some 2, false, some true, some 1, none⟩],
   [⟨"TOK", "0.0.50", 7, 1, none, true, false, 0, 0, 1⟩],
   []⟩

/-- Concrete fixture: metadata for `TOK` already `refresh_in_progress`. -/
def busyDB : DB :=
  ⟨[⟨"TOK", "0.0.1", some 2, true, none, none, none⟩],
   [⟨"TOK", "0.0.50", 7, 1, none, true, false, 0, 0, 1⟩],
   []⟩

/-- Concrete fixture: page 1 succeeds (with a `next` cursor), page 2's request
fails after retries. -/
def pagesMidFail : List (Option Page) :=
  [some ⟨[⟨"0.0.100", 500⟩, ⟨"0.0.101", 300⟩], true⟩, none]

/-- Concrete fixture: a single complete page. -/
def pagesOne : List (Option Page) := [some ⟨[⟨"0.0.100", 500⟩], false⟩]

end Refresh

/-! ## Theorems -/

namespace TokenHoldings

theorem floor_natCast_div_hundred (n : Nat) :
    ⌊((n : ℚ)) / 100⌋ = ((n / 100 : Nat) : ℤ) := by
  have h1 : ((n : ℚ)) = (((n : ℤ) : ℚ)) := by push_cast; ring
  have h2 : ((100 : ℚ)) = (((100 : Nat) : ℚ)) := by norm_num
  rw [h1, h2, Rat.floor_intCast_div_natCast]
  exact_mod_cast Int.natCast_div n 100

theorem decTrunc_exact (n : Nat) (hn : 1 ≤ n) :
    decTrunc ((n : ℚ) / 100 - 1) =
      if 100 ≤ n then ((n / 100 : Nat) : ℤ) - 1 else 0 := by
  by_cases h : 100 ≤ n
  · have hnn : (0 : ℚ) ≤ (n : ℚ) / 100 - 1 := by
      have h100 : (100 : ℚ) ≤ (n : ℚ) := by exact_mod_cast h
      have := (one_le_div (by norm_num : (0:ℚ) < 100)).mpr h100
      linarith
    rw [decTrunc, if_pos hnn, if_pos h]
    have hone : ((n : ℚ) / 100 - 1) = ((n : ℚ) / 100 - (1 : ℤ)) := by norm_num
    rw [hone, Int.floor_sub_int, floor_natCast_div_hundred]
  · have hlt : (n : ℚ) / 100 - 1 < 0 := by
      have hc : (n : ℚ) < 100 := by exact_mod_cast Nat.lt_of_not_le h
      have : (n : ℚ) / 100 < 1 := by
        rw [div_lt_one (by norm_num : (0:ℚ) < 100)]; exact hc
      linarith
    rw [decTrunc, if_neg (not_le.mpr hlt), if_neg h]
    have hone : ((n : ℚ) / 100 - 1) = ((n : ℚ) / 100 - (1 : ℤ)) := by norm_num
    rw [hone, Int.ceil_sub_int]
    have hceil : ⌈(n : ℚ) / 100⌉ = 1 := by
      rw [Int.ceil_eq_iff]
      constructor
      · simp only [Int.cast_one, sub_self]
        positivity
      · have hle : (n : ℚ) ≤ 100 := by
          exact_mod_cast Nat.le_of_lt (Nat.lt_of_not_le h)
        push_cast
        rw [div_le_one (by norm_num : (0:ℚ) < 100)]
        exact hle
    rw [hceil]
    ring

/-- The `Decimal`-arithmetic position computation agrees with the integer
clamp-of-floor formula `clamp(floor(p/100 * N) - 1, 0, N - 1)` (here written
with truncated `Nat` subtraction, which absorbs the lower clamp). -/
theorem percentilePosition_eq (total p : Nat) (htot : 1 ≤ total) (hp : 1 ≤ p) :
    percentilePosition total p = min (total - 1) (p * total / 100 - 1) := by
  have hcast : ((p : ℚ) / 100 * (total : ℚ) - 1) = ((p * total : Nat) : ℚ) / 100 - 1 := by
    push_cast; ring
  have hn : 1 ≤ p * total := Nat.one_le_iff_ne_zero.mpr (by positivity)
  rw [percentilePosition, hcast, decTrunc_exact _ hn]
  by_cases h : 100 ≤ p * total
  · rw [if_pos h]
    have hk : 1 ≤ p * total / 100 := (Nat.one_le_div_iff (by norm_num)).mpr h
    generalize p * total / 100 = k at *
    omega
  · rw [if_neg h]
    have hk : p * total / 100 = 0 := Nat.div_eq_of_lt (Nat.lt_of_not_le h)
    rw [hk]
    omega

/-- The computed position never exceeds `total - 1`. -/
theorem percentilePosition_le (total p : Nat) (htot : 1 ≤ total) :
    percentilePosition total p ≤ total - 1 := by
  rw [percentilePosition]
  generalize decTrunc ((p : ℚ) / 100 * (total : ℚ) - 1) = x
  omega

theorem descPercentiles_getElem (p : Nat) (h1 : 1 ≤ p) (h2 : p ≤ 99) :
    descPercentiles[99 - p]? = some p := by
  have hidx : 99 - p < 99 := by omega
  rw [descPercentiles, List.getElem?_map, List.getElem?_range hidx, Option.map_some']
  congr 1
  omega

/-- Shared marker lemma: the row the engine emits for percentile `p` (at
output index `99 - p`) is the sorted holder at the clamped floor position,
carrying `rank = position + 1`. -/
theorem marker_spec (holders : List Holder) (p : Nat)
    (h1 : 1 ≤ p) (h2 : p ≤ 99) (hne : holders ≠ []) :
    (calculate_top_holders_and_percentiles holders).2[99 - p]? =
      some ⟨(sortHoldersDesc holders).getD
              (min (holders.length - 1) (p * holders.length / 100 - 1)) defaultHolder,
            min (holders.length - 1) (p * holders.length / 100 - 1) + 1,
            some p, false, true⟩ := by
  have hlen : (sortHoldersDesc holders).length = holders.length :=
    List.length_insertionSort holderGE holders
  have htot : 1 ≤ holders.length := List.length_pos.mpr hne
  rw [calculate_top_holders_and_percentiles,
    if_neg (by simpa [List.isEmpty_iff] using hne)]
  rw [percentileRows, List.getElem?_map, descPercentiles_getElem p h1 h2,
    Option.map_some', percentileRow, hlen, percentilePosition_eq _ _ htot h1]

theorem hs1000_length : hs1000.length = 1000 := by
  simp [hs1000]

theorem hs1000_ne_nil : hs1000 ≠ [] := by
  intro h
  have := congrArg List.length h
  rw [hs1000_length] at this
  simp at this

theorem hs1000_pairwise : List.Sorted holderGE hs1000 := by
  rw [hs1000, List.Sorted, List.pairwise_map]
  refine List.Pairwise.imp ?_ (List.pairwise_lt_range 1000)
  intro i j hij
  show (mkDescHolder j).balance ≤ (mkDescHolder i).balance
  simp only [mkDescHolder]
  exact_mod_cast Nat.sub_le_sub_left (Nat.le_of_lt hij) 1000

/-- The descending fixture is already sorted, so the stable sort fixes it. -/
theorem sortHoldersDesc_hs1000 : sortHoldersDesc hs1000 = hs1000 :=
  List.Sorted.insertionSort_eq hs1000_pairwise

theorem hs1000_getElem (i : Nat) (hi : i < 1000) :
    hs1000[i]? = some (mkDescHolder i) := by
  rw [hs1000, List.getElem?_map, List.getElem?_range hi, Option.map_some']

theorem rankRows_length (r : Nat) (l : List Holder) :
    (rankRows r l).length = l.length := by
  induction l generalizing r with
  | nil => rfl
  | cons h t ih => simp [rankRows, ih]

theorem mem_rankRows (r : Nat) (l : List Holder) (row : StatRow)
    (hm : row ∈ rankRows r l) :
    (r ≤ row.rank ∧ row.rank < r + l.length) ∧ row.percentile = none ∧
      row.is_top_holder = true ∧ row.is_percentile_marker = false := by
  induction l generalizing r with
  | nil => simp [rankRows] at hm
  | cons h t ih =>
    rw [rankRows, List.mem_cons] at hm
    rcases hm with rfl | hm
    · refine ⟨⟨le_refl r, ?_⟩, rfl, rfl, rfl⟩
      simp only [List.length_cons]
      omega
    · obtain ⟨⟨hr1, hr2⟩, hrest⟩ := ih (r + 1) hm
      refine ⟨⟨by omega, ?_⟩, hrest⟩
      simp only [List.length_cons]
      omega

theorem mem_percentileRows (sorted : List Holder) (row : StatRow)
    (hm : row ∈ percentileRows sorted) :
    ∃ p, 1 ≤ p ∧ p ≤ 99 ∧ row = percentileRow sorted p := by
  rw [percentileRows, List.mem_map] at hm
  obtain ⟨p, hp, rfl⟩ := hm
  rw [descPercentiles, List.mem_map] at hp
  obtain ⟨i, hi, rfl⟩ := hp
  rw [List.mem_range] at hi
  exact ⟨99 - i, by omega, by omega, rfl⟩

theorem descPercentiles_length : descPercentiles.length = 99 := by
  simp [descPercentiles]

/-- C1: for every holder list of size `N ≥ 1` and every percentile
`p ∈ [1, 99]`, `calculate_top_holders_and_percentiles` selects the percentile
marker at index `clamp(floor(p/100 * N) - 1, 0, N-1)` of the list sorted
descending by balance (here `min (N-1) (p*N/100 - 1)` with truncated `Nat`
subtraction, which realises the clamp) and assigns it `rank = index + 1`;
the position is computed in exact decimal arithmetic, modelled by `ℚ`. -/
theorem percentile_marker_position_formula (holders : List Holder) (p : Nat)
    (h1 : 1 ≤ p) (h2 : p ≤ 99) (hne : holders ≠ []) :
    (calculate_top_holders_and_percentiles holders).2[99 - p]? =
      some ⟨(sortHoldersDesc holders).getD
              (min (holders.length - 1) (p * holders.length / 100 - 1)) defaultHolder,
            min (holders.length - 1) (p * holders.length / 100 - 1) + 1,
            some p, false, true⟩ :=
  marker_spec holders p h1 h2 hne

/-- Witness for C1, at the claim's own example `N = 1000`, `p = 50`: the
selected position is `499` and the marker carries rank `500`. -/
theorem percentile_marker_position_formula_witness :
    1 ≤ 50 ∧ 50 ≤ 99 ∧ hs1000 ≠ [] ∧
    min (hs1000.length - 1) (50 * hs1000.length / 100 - 1) = 499 ∧
    (calculate_top_holders_and_percentiles hs1000).2[99 - 50]? =
      some ⟨(sortHoldersDesc hs1000).getD
              (min (hs1000.length - 1) (50 * hs1000.length / 100 - 1)) defaultHolder,
            min (hs1000.length - 1) (50 * hs1000.length / 100 - 1) + 1,
            some 50, false, true⟩ :=
  ⟨by norm_num, by norm_num, hs1000_ne_nil, by rw [hs1000_length]; decide,
   percentile_marker_position_formula hs1000 50 (by norm_num) (by norm_num) hs1000_ne_nil⟩

/-- C6 counterexample: on 1000 pairwise-distinct descending balances the
engine places the `p = 1` marker at rank `10` (position 9), not at rank `9`
(position 8) as claimed. -/
theorem percentile_p1_rank_counterexample :
    Option.map StatRow.rank ((calculate_top_holders_and_percentiles hs1000).2[98]?) =
      some 10 ∧
    Option.map StatRow.rank ((calculate_top_holders_and_percentiles hs1000).2[98]?) ≠
      some 9 := by
  have h := marker_spec hs1000 1 (by norm_num) (by norm_num) hs1000_ne_nil
  rw [hs1000_length] at h
  norm_num at h
  rw [h]
  constructor
  · rfl
  · simp

/-- C6 (amended): for the 1000-holder descending input the engine places the
`p = 99` marker at position 989 (rank 990) and the `p = 1` marker at position
9 (rank 10). -/
theorem percentile_markers_n1000 :
    (calculate_top_holders_and_percentiles hs1000).2[0]? =
      some ⟨mkDescHolder 989, 990, some 99, false, true⟩ ∧
    (calculate_top_holders_and_percentiles hs1000).2[98]? =
      some ⟨mkDescHolder 9, 10, some 1, false, true⟩ := by
  have h99 := marker_spec hs1000 99 (by norm_num) (by norm_num) hs1000_ne_nil
  have h1 := marker_spec hs1000 1 (by norm_num) (by norm_num) hs1000_ne_nil
  rw [hs1000_length, sortHoldersDesc_hs1000] at h99 h1
  norm_num at h99 h1
  rw [hs1000_getElem 989 (by norm_num), Option.getD_some] at h99
  rw [hs1000_getElem 9 (by norm_num), Option.getD_some] at h1
  exact ⟨h99, h1⟩

theorem rankRows_map_rank (r : Nat) (l : List Holder) :
    (rankRows r l).map StatRow.rank = (List.range l.length).map (fun i => r + i) := by
  induction l generalizing r with
  | nil => rfl
  | cons h t ih =>
    have hfun : (fun i => r + i) ∘ Nat.succ = fun i => (r + 1) + i := by
      funext i
      simp only [Function.comp]
      omega
    rw [rankRows, List.map_cons, ih (r + 1), List.length_cons,
      List.range_succ_eq_map, List.map_cons, List.map_map, hfun]
    rfl

/-- The top-holder rows carry exactly the ranks `1, 2, …, min(10, N)`, in
order. -/
theorem topHolderRows_map_rank (sorted : List Holder) :
    (topHolderRows sorted).map StatRow.rank =
      (List.range (min 10 sorted.length)).map (fun i => 1 + i) := by
  have hmin : min (min 10 sorted.length) sorted.length = min 10 sorted.length := by
    omega
  rw [topHolderRows, rankRows_map_rank, List.length_take, hmin]

/-- The marker rows carry exactly the percentiles `99, 98, …, 1`, in order:
one marker per percentile. -/
theorem percentileRows_map_percentile (sorted : List Holder) :
    (percentileRows sorted).map (fun row => row.percentile) =
      (List.range 99).map (fun i => some (99 - i)) := by
  rw [percentileRows, descPercentiles, List.map_map, List.map_map]
  rfl

/-- C7: `N = 0` returns two empty lists without raising; `N ≥ 1` returns
exactly `min(N, 10)` top-holder rows carrying exactly the ranks
`1..min(N, 10)`, and exactly 99 percentile rows — one marker per percentile,
99 down to 1 (duplicate holders allowed when `N < 99`) — and every rank in
both outputs lies within `[1, N]`. -/
theorem engine_output_shape (holders : List Holder) :
    (holders = [] → calculate_top_holders_and_percentiles holders = ([], [])) ∧
    (holders ≠ [] →
      (calculate_top_holders_and_percentiles holders).1.length = min holders.length 10 ∧
      (calculate_top_holders_and_percentiles holders).2.length = 99 ∧
      (calculate_top_holders_and_percentiles holders).1.map StatRow.rank =
        (List.range (min holders.length 10)).map (fun i => i + 1) ∧
      (calculate_top_holders_and_percentiles holders).2.map (fun row => row.percentile) =
        (List.range 99).map (fun i => some (99 - i)) ∧
      (∀ row ∈ (calculate_top_holders_and_percentiles holders).1,
        1 ≤ row.rank ∧ row.rank ≤ holders.length) ∧
      (∀ row ∈ (calculate_top_holders_and_percentiles holders).2,
        1 ≤ row.rank ∧ row.rank ≤ holders.length)) := by
  constructor
  · rintro rfl
    rfl
  · intro hne
    have htot : 1 ≤ holders.length := List.length_pos.mpr hne
    have hlen : (sortHoldersDesc holders).length = holders.length :=
      List.length_insertionSort holderGE holders
    have hcalc : calculate_top_holders_and_percentiles holders =
        (topHolderRows (sortHoldersDesc holders),
         percentileRows (sortHoldersDesc holders)) := by
      rw [calculate_top_holders_and_percentiles,
        if_neg (by simpa [List.isEmpty_iff] using hne)]
    refine ⟨?_, ?_, ?_, ?_, ?_, ?_⟩
    · rw [hcalc]
      simp only [topHolderRows, rankRows_length, List.length_take, hlen]
      omega
    · rw [hcalc]
      simp only [percentileRows, List.length_map, descPercentiles_length]
    · rw [hcalc]
      show (topHolderRows (sortHoldersDesc holders)).map StatRow.rank = _
      rw [topHolderRows_map_rank, hlen, Nat.min_comm]
      exact List.map_congr_left (fun a _ => Nat.add_comm 1 a)
    · rw [hcalc]
      exact percentileRows_map_percentile _
    · intro row hrow
      rw [hcalc] at hrow
      obtain ⟨⟨hr1, hr2⟩, -⟩ := mem_rankRows 1 _ row hrow
      rw [List.length_take, hlen] at hr2
      omega
    · intro row hrow
      rw [hcalc] at hrow
      obtain ⟨p, hp1, hp99, rfl⟩ := mem_percentileRows _ row hrow
      have hb := percentilePosition_le (sortHoldersDesc holders).length p
        (by rw [hlen]; exact htot)
      simp only [percentileRow]
      rw [hlen] at hb ⊢
      omega

/-- Witness for C7 at concrete inputs: the empty list and a 3-holder list. -/
theorem engine_output_shape_witness :
    calculate_top_holders_and_percentiles [] = ([], []) ∧
    hsSmall ≠ [] ∧
    ((calculate_top_holders_and_percentiles hsSmall).1.length = min hsSmall.length 10 ∧
      (calculate_top_holders_and_percentiles hsSmall).2.length = 99 ∧
      (calculate_top_holders_and_percentiles hsSmall).1.map StatRow.rank =
        (List.range (min hsSmall.length 10)).map (fun i => i + 1) ∧
      (calculate_top_holders_and_percentiles hsSmall).2.map (fun row => row.percentile) =
        (List.range 99).map (fun i => some (99 - i)) ∧
      (∀ row ∈ (calculate_top_holders_and_percentiles hsSmall).1,
        1 ≤ row.rank ∧ row.rank ≤ hsSmall.length) ∧
      (∀ row ∈ (calculate_top_holders_and_percentiles hsSmall).2,
        1 ≤ row.rank ∧ row.rank ≤ hsSmall.length)) :=
  ⟨(engine_output_shape []).1 rfl, by decide,
   (engine_output_shape hsSmall).2 (by decide)⟩

/-- C10: every row emitted by the engine has exactly one of the two flags
set; top-holder rows carry `percentile = None`, percentile-marker rows carry
an integer percentile in `[1, 99]`. -/
theorem row_flag_invariant (holders : List Holder) (row : StatRow)
    (hrow : row ∈ (calculate_top_holders_and_percentiles holders).1 ∨
            row ∈ (calculate_top_holders_and_percentiles holders).2) :
    row.is_top_holder ≠ row.is_percentile_marker ∧
    (row.is_top_holder = true → row.percentile = none) ∧
    (row.is_percentile_marker = true →
      ∃ p, row.percentile = some p ∧ 1 ≤ p ∧ p ≤ 99) := by
  cases hemp : holders.isEmpty with
  | true =>
    rw [calculate_top_holders_and_percentiles] at hrow
    rw [hemp] at hrow
    simp at hrow
  | false =>
    rw [calculate_top_holders_and_percentiles] at hrow
    rw [hemp] at hrow
    simp only [Bool.false_eq_true, if_false] at hrow
    rcases hrow with hrow | hrow
    · obtain ⟨-, hnone, htop, hmark⟩ := mem_rankRows 1 _ row hrow
      rw [htop, hmark]
      exact ⟨by simp, fun _ => hnone, by simp⟩
    · obtain ⟨p, hp1, hp99, rfl⟩ := mem_percentileRows _ row hrow
      refine ⟨by simp [percentileRow], by simp [percentileRow],
        fun _ => ⟨p, by simp [percentileRow], hp1, hp99⟩⟩

/-- Witness for C10 at a concrete emitted row of the 3-holder fixture. -/
theorem row_flag_invariant_witness :
    (⟨⟨"0.0.100", 5, none, none⟩, 1, none, true, false⟩ : StatRow) ∈
        (calculate_top_holders_and_percentiles hsSmall).1 ∧
    ((true : Bool) ≠ false ∧
      ((true : Bool) = true → (none : Option Nat) = none) ∧
      ((false : Bool) = true → ∃ p, (none : Option Nat) = some p ∧ 1 ≤ p ∧ p ≤ 99)) :=
  ⟨by decide,
   row_flag_invariant hsSmall ⟨⟨"0.0.100", 5, none, none⟩, 1, none, true, false⟩
     (Or.inl (by decide))⟩

/-- C8: when no USD price is available for the token, USD enrichment is the
identity: `calculate_usd_values` and `filter_holders_by_usd_value` return the
input list unchanged rather than failing the batch. -/
theorem usd_enrichment_noop (holders : List Holder) (m : Option ℚ) :
    calculate_usd_values none holders = holders ∧
    filter_holders_by_usd_value none m holders = holders := by
  refine ⟨rfl, ?_⟩
  cases m with
  | none => rfl
  | some m0 =>
    by_cases h : m0 = 0 <;> simp [filter_holders_by_usd_value, h]

end TokenHoldings

namespace Pricing

theorem isValidTokenData_iff (e : TokenEntry) :
    isValidTokenData e = true ↔
      (∃ i, e.id = some i ∧ i ≠ "") ∧
      (∃ q, e.priceUsd = some (some q) ∧ 0 ≤ q) ∧
      (∃ d, e.decimals = some (some d)) := by
  obtain ⟨oi, op, od⟩ := e
  cases oi with
  | none => simp [isValidTokenData]
  | some i =>
    cases op with
    | none => simp [isValidTokenData]
    | some oq =>
      cases oq with
      | none => simp [isValidTokenData]
      | some q =>
        cases od with
        | none => simp [isValidTokenData, not_lt]
        | some dd =>
          cases dd with
          | none => simp [isValidTokenData, not_lt]
          | some d =>
            by_cases hi : i = ""
            · simp [isValidTokenData, hi]
            · rcases lt_or_le q 0 with hq | hq
              · simp [isValidTokenData, hi, hq, not_le.mpr hq]
              · simp [isValidTokenData, hi, not_lt.mpr hq, hq]

theorem buildCache_skip_invalid (e : TokenEntry) (entries : List TokenEntry)
    (hinv : isValidTokenData e = false) :
    buildCache (e :: entries) = buildCache entries := by
  rw [buildCache, List.filterMap_cons]
  rw [entryKeyPrice, if_neg (by rw [hinv]; exact Bool.false_ne_true)]
  rfl

/-- C9 (amended): an ingested entry is accepted into the cache iff it has a
non-empty string id, a priceUsd field parsing to a non-negative decimal, and
a decimals field parseable as an integer; a decimals value outside `[0, 50]`
only logs a warning and the entry is still accepted.  An entry failing the
checks is skipped and never aborts the refresh (the rest of the response is
still ingested). -/
theorem price_entry_acceptance (e : TokenEntry) (entries : List TokenEntry) :
    (isValidTokenData e = true ↔
      (∃ i, e.id = some i ∧ i ≠ "") ∧
      (∃ q, e.priceUsd = some (some q) ∧ 0 ≤ q) ∧
      (∃ d, e.decimals = some (some d))) ∧
    (isValidTokenData e = false →
      buildCache (e :: entries) = buildCache entries) :=
  ⟨isValidTokenData_iff e, buildCache_skip_invalid e entries⟩

/-- Witness for C9's amended statement at a concrete invalid entry (missing
id), skipped without aborting the ingestion of the rest of the response. -/
theorem price_entry_acceptance_witness :
    isValidTokenData ⟨none, some (some 2), some (some 8)⟩ = false ∧
    buildCache (⟨none, some (some 2), some (some 8)⟩ :: [bigDecimalsEntry]) =
      buildCache [bigDecimalsEntry] :=
  ⟨by decide,
   (price_entry_acceptance ⟨none, some (some 2), some (some 8)⟩ [bigDecimalsEntry]).2
     (by decide)⟩

/-- C9 counterexample: the entry `{id: "0.0.1", priceUsd: 1, decimals: 99}`
has a decimals value outside `[0, 50]`, yet the validator accepts it and the
refresh stores it in the cache, contradicting the claimed "accepted iff …
decimals in [0, 50]". -/
theorem decimals_bound_not_enforced_counterexample :
    isValidTokenData bigDecimalsEntry = true ∧
    (refresh_price_cache ⟨[], false⟩ (some [bigDecimalsEntry])).1.cache =
      [("0.0.1", 1)] ∧
    ¬ ((0 : ℤ) ≤ 99 ∧ (99 : ℤ) ≤ 50) := by
  refine ⟨by decide, by decide, by decide⟩

theorem refresh_fail_state (st : PriceState) (resp : Option (List TokenEntry))
    (hfail : (refresh_price_cache st resp).2 = false) :
    (refresh_price_cache st resp).1 = st := by
  cases resp with
  | none => rfl
  | some entries =>
    rw [refresh_price_cache] at hfail ⊢
    by_cases h : (buildCache entries).isEmpty
    · rw [if_pos h]
    · rw [if_neg h] at hfail
      simp at hfail

/-- C4 (amended): when the cache TTL has expired and the refresh attempt
fails, `get_token_price_usd` returns unavailable (`None`) regardless of
whether the prior cache is non-empty; the prior cache contents are retained
in memory but not served. -/
theorem failed_refresh_returns_unavailable (hbar : Option ℚ) (st : PriceState)
    (resp : Option (List TokenEntry)) (tid : String)
    (hhbar : tid ≠ "0.0.0") (hvalid : st.cacheValid = false)
    (hfail : (refresh_price_cache st resp).2 = false) :
    (get_token_price_usd hbar st resp tid).2 = none ∧
    (get_token_price_usd hbar st resp tid).1.cache = st.cache := by
  rw [get_token_price_usd, if_neg hhbar]
  rw [if_neg (by rw [hvalid]; exact Bool.false_ne_true)]
  rw [if_neg (by rw [hfail]; exact Bool.false_ne_true)]
  exact ⟨rfl, by rw [refresh_fail_state st resp hfail]⟩

/-- Witness for C4's amended statement at a concrete stale state. -/
theorem failed_refresh_returns_unavailable_witness :
    ("0.0.5" : String) ≠ "0.0.0" ∧ staleState.cacheValid = false ∧
    (refresh_price_cache staleState none).2 = false ∧
    ((get_token_price_usd none staleState none "0.0.5").2 = none ∧
      (get_token_price_usd none staleState none "0.0.5").1.cache = staleState.cache) :=
  ⟨by decide, rfl, rfl,
   failed_refresh_returns_unavailable none staleState none "0.0.5" (by decide) rfl rfl⟩

/-- C4 counterexample: with a non-empty but expired cache and a failing
refresh, `get_token_price_usd` returns `None` instead of the stale cached
price `5`, contradicting "keeps serving the stale cached price". -/
theorem stale_cache_not_served_counterexample :
    staleState.cache = [("0.0.5", 5)] ∧
    (get_token_price_usd none staleState none "0.0.5").2 = none ∧
    (get_token_price_usd none staleState none "0.0.5").2 ≠ some 5 := by
  refine ⟨rfl, rfl, by decide⟩

end Pricing

namespace Refresh

theorem putMeta_holdings (db : DB) (tok : String) (m : Metadata) :
    (putMeta db tok m).holdings = db.holdings := by
  rw [putMeta]
  cases findMeta db tok <;> rfl

theorem putMeta_logs (db : DB) (tok : String) (m : Metadata) :
    (putMeta db tok m).logs = db.logs := by
  rw [putMeta]
  cases findMeta db tok <;> rfl

theorem addLog_holdings (db : DB) (tok op : String) (msg : Option String) :
    (addLog db tok op msg).holdings = db.holdings := rfl

theorem addLog_metadata (db : DB) (tok op : String) (msg : Option String) :
    (addLog db tok op msg).metadata = db.metadata := rfl

theorem findMeta_addLog (db : DB) (tok tok2 op : String) (msg : Option String) :
    findMeta (addLog db tok2 op msg) tok = findMeta db tok := rfl

theorem findMeta_symbol (db : DB) (tok : String) (m : Metadata)
    (h : findMeta db tok = some m) : m.token_symbol = tok := by
  rw [findMeta] at h
  simpa using List.find?_some h

theorem find?_replace (l : List Metadata) (tok : String) (m : Metadata)
    (hm : m.token_symbol = tok)
    (hex : l.find? (fun x => x.token_symbol = tok) ≠ none) :
    (l.map (fun m0 => if m0.token_symbol = tok then m else m0)).find?
      (fun x => x.token_symbol = tok) = some m := by
  induction l with
  | nil => simp at hex
  | cons h t ih =>
    by_cases hh : h.token_symbol = tok
    · simp only [List.map_cons, if_pos hh]
      rw [List.find?_cons_of_pos _ (by simpa using hm)]
    · simp only [List.map_cons, if_neg hh]
      rw [List.find?_cons_of_neg _ (by simpa using hh)]
      rw [List.find?_cons_of_neg _ (by simpa using hh)] at hex
      exact ih hex

theorem findMeta_putMeta (db : DB) (tok : String) (m : Metadata)
    (hm : m.token_symbol = tok) :
    findMeta (putMeta db tok m) tok = some m := by
  rw [putMeta]
  cases hfind : findMeta db tok with
  | some m0 =>
    rw [findMeta]
    refine find?_replace db.metadata tok m hm ?_
    rw [findMeta] at hfind
    simp [hfind]
  | none =>
    rw [findMeta] at hfind ⊢
    simp only [List.find?_append, hfind, Option.none_or]
    rw [List.find?_cons_of_pos _ (by simpa using hm)]

theorem startedMeta_symbol (m : Metadata) (d : Nat) :
    (startedMeta m d).token_symbol = m.token_symbol := rfl

theorem failedMeta_symbol (m : Metadata) (e : String) :
    (failedMeta m e).token_symbol = m.token_symbol := rfl

theorem baseMeta_symbol (db : DB) (tok tid : String) :
    ((findMeta db tok).getD ⟨tok, tid, none, false, none, none, none⟩).token_symbol = tok := by
  cases hf : findMeta db tok with
  | none => rfl
  | some m0 =>
    rw [Option.getD_some]
    exact findMeta_symbol db tok m0 hf

/-- C5: if the token's metadata already shows `refresh_in_progress = true`,
the invocation is rejected outright with no change to that token's metadata
or holder rows; exactly one explicit rejection is produced (one audit log
row, the run's only commit) and no fetch sequence is started. -/
theorem single_flight_rejection (db0 : DB) (tok tid : String) (decimals : Nat)
    (pages : List (Option Page)) (batch : Nat) (swapFail : Bool) (m : Metadata)
    (hfound : findMeta db0 tok = some m) (hprog : m.refresh_in_progress = true) :
    (refresh_token_data db0 tok tid decimals pages batch swapFail).ok = false ∧
    (refresh_token_data db0 tok tid decimals pages batch swapFail).final.metadata =
      db0.metadata ∧
    (refresh_token_data db0 tok tid decimals pages batch swapFail).final.holdings =
      db0.holdings ∧
    (refresh_token_data db0 tok tid decimals pages batch swapFail).final.logs =
      db0.logs ++ [⟨tok, "error", some "Refresh already in progress"⟩] ∧
    (refresh_token_data db0 tok tid decimals pages batch swapFail).trace =
      [(refresh_token_data db0 tok tid decimals pages batch swapFail).final] := by
  have hcond :
      ((findMeta db0 tok).map (fun x => x.refresh_in_progress)).getD false = true := by
    rw [hfound, Option.map_some', Option.getD_some, hprog]
  rw [refresh_token_data, if_pos hcond]
  exact ⟨rfl, rfl, rfl, rfl, rfl⟩

/-- Witness for C5 at a concrete database whose `TOK` metadata is busy. -/
theorem single_flight_rejection_witness :
    findMeta busyDB "TOK" = some ⟨"TOK", "0.0.1", some 2, true, none, none, none⟩ ∧
    ((refresh_token_data busyDB "TOK" "0.0.1" 2 pagesOne 7 false).ok = false ∧
      (refresh_token_data busyDB "TOK" "0.0.1" 2 pagesOne 7 false).final.metadata =
        busyDB.metadata ∧
      (refresh_token_data busyDB "TOK" "0.0.1" 2 pagesOne 7 false).final.holdings =
        busyDB.holdings ∧
      (refresh_token_data busyDB "TOK" "0.0.1" 2 pagesOne 7 false).final.logs =
        busyDB.logs ++ [⟨"TOK", "error", some "Refresh already in progress"⟩] ∧
      (refresh_token_data busyDB "TOK" "0.0.1" 2 pagesOne 7 false).trace =
        [(refresh_token_data busyDB "TOK" "0.0.1" 2 pagesOne 7 false).final]) :=
  ⟨by decide,
   single_flight_rejection busyDB "TOK" "0.0.1" 2 pagesOne 7 false
     ⟨"TOK", "0.0.1", some 2, true, none, none, none⟩ (by decide) rfl⟩

end Refresh

namespace Refresh

/-- C2: with a storage failure injected into the swap transaction, the
delete-old + insert-new is rolled back in full: the run returns `False`, the
holder table of the final committed state is exactly the pre-refresh table,
the token's metadata is marked failed, and every committed snapshot the run
ever exposed to readers carries the untouched pre-refresh holder table — no
reader can observe a mix of old and new rows. -/
theorem swap_failure_atomicity (db0 : DB) (tok tid : String) (decimals : Nat)
    (pages : List (Option Page)) (batch : Nat)
    (hidle : ((findMeta db0 tok).map (fun x => x.refresh_in_progress)).getD false = false)
    (hsome : (fetch_token_holders decimals pages).isEmpty = false) :
    (refresh_token_data db0 tok tid decimals pages batch true).ok = false ∧
    (refresh_token_data db0 tok tid decimals pages batch true).final.holdings =
      db0.holdings ∧
    (∃ m, findMeta (refresh_token_data db0 tok tid decimals pages batch true).final tok =
        some m ∧
      m.refresh_in_progress = false ∧ m.last_refresh_success = some false ∧
      m.error_message = some "Database operation failed") ∧
    (∀ db ∈ (refresh_token_data db0 tok tid decimals pages batch true).trace,
      db.holdings = db0.holdings) := by
  rw [refresh_token_data, if_neg (by rw [hidle]; exact Bool.false_ne_true)]
  simp only [hsome, Bool.false_eq_true, if_false, if_true]
  refine ⟨?_, ?_, ?_, ?_⟩
  · trivial
  · simp only [putMeta_holdings, addLog_holdings]
  · refine ⟨failedMeta (startedMeta ((findMeta db0 tok).getD
      ⟨tok, tid, none, false, none, none, none⟩) decimals) "Database operation failed",
      ?_, ?_, ?_, ?_⟩
    · rw [findMeta_addLog, findMeta_putMeta]
      rw [failedMeta_symbol, startedMeta_symbol, baseMeta_symbol]
    · rfl
    · rfl
    · rfl
  · intro db hdb
    simp only [List.mem_cons, List.not_mem_nil, or_false] at hdb
    rcases hdb with rfl | rfl | rfl | rfl <;>
      simp only [putMeta_holdings, addLog_holdings]

end Refresh

namespace Refresh

/-- Witness for C2 at a concrete database with a committed prior snapshot. -/
theorem swap_failure_atomicity_witness :
    ((findMeta snapshotDB "TOK").map (fun x => x.refresh_in_progress)).getD false = false ∧
    (fetch_token_holders 2 pagesOne).isEmpty = false ∧
    ((refresh_token_data snapshotDB "TOK" "0.0.1" 2 pagesOne 7 true).ok = false ∧
      (refresh_token_data snapshotDB "TOK" "0.0.1" 2 pagesOne 7 true).final.holdings =
        snapshotDB.holdings ∧
      (∃ m, findMeta (refresh_token_data snapshotDB "TOK" "0.0.1" 2 pagesOne 7 true).final
            "TOK" = some m ∧
        m.refresh_in_progress = false ∧ m.last_refresh_success = some false ∧
        m.error_message = some "Database operation failed") ∧
      (∀ db ∈ (refresh_token_data snapshotDB "TOK" "0.0.1" 2 pagesOne 7 true).trace,
        db.holdings = snapshotDB.holdings)) :=
  ⟨by decide, by decide,
   swap_failure_atomicity snapshotDB "TOK" "0.0.1" 2 pagesOne 7 (by decide) (by decide)⟩

/-- C3 (amended): only a failure on the *first* page aborts the refresh (the
zero-holder check turns it into a failure with holder rows untouched); a page
failure after at least one successful page merely truncates the fetch to the
pages before the failure, so the refresh persists rows computed from that
prefix alone. -/
theorem page_failure_prefix (db0 : DB) (tok tid : String) (decimals : Nat)
    (rest : List (Option Page)) (batch : Nat) (swapFail : Bool) (pre : List Page)
    (hidle : ((findMeta db0 tok).map (fun x => x.refresh_in_progress)).getD false = false)
    (hnext : ∀ pg ∈ pre, pg.hasNext = true) :
    ((refresh_token_data db0 tok tid decimals (none :: rest) batch swapFail).ok = false ∧
      (refresh_token_data db0 tok tid decimals (none :: rest) batch swapFail).final.holdings =
        db0.holdings) ∧
    fetch_token_holders decimals (pre.map some ++ none :: rest) =
      (pre.map (pageHolders decimals)).flatten := by
  constructor
  · have hempty : (fetch_token_holders decimals (none :: rest)).isEmpty = true := rfl
    rw [refresh_token_data, if_neg (by rw [hidle]; exact Bool.false_ne_true)]
    simp only [hempty, if_true]
    exact ⟨trivial, by simp only [putMeta_holdings, addLog_holdings]⟩
  · induction pre with
    | nil => rfl
    | cons pg t ih =>
      have hh := hnext pg (List.mem_cons_self pg t)
      have ih2 := ih (fun x hx => hnext x (List.mem_cons_of_mem pg hx))
      simp [fetch_token_holders, hh, ih2]

/-- Witness for C3's amended statement at concrete inputs. -/
theorem page_failure_prefix_witness :
    ((findMeta emptyDB "TOK").map (fun x => x.refresh_in_progress)).getD false = false ∧
    (∀ pg ∈ [(⟨[⟨"0.0.100", 500⟩], true⟩ : Page)], pg.hasNext = true) ∧
    (((refresh_token_data emptyDB "TOK" "0.0.1" 2 [none] 7 false).ok = false ∧
      (refresh_token_data emptyDB "TOK" "0.0.1" 2 [none] 7 false).final.holdings =
        emptyDB.holdings) ∧
    fetch_token_holders 2 ([(⟨[⟨"0.0.100", 500⟩], true⟩ : Page)].map some ++ [none]) =
      ([(⟨[⟨"0.0.100", 500⟩], true⟩ : Page)].map (pageHolders 2)).flatten) :=
  ⟨by decide, by decide,
   page_failure_prefix emptyDB "TOK" "0.0.1" 2 [] 7 false
     [⟨[⟨"0.0.100", 500⟩], true⟩] (by decide) (by decide)⟩

end Refresh

namespace TokenHoldings

theorem calc_perc_length (holders : List Holder) (hne : holders ≠ []) :
    (calculate_top_holders_and_percentiles holders).2.length = 99 := by
  rw [calculate_top_holders_and_percentiles,
    if_neg (by simpa [List.isEmpty_iff] using hne)]
  simp only [percentileRows, List.length_map, descPercentiles_length]

theorem rankRows_holder_mem (r : Nat) (l : List Holder) (row : StatRow)
    (hm : row ∈ rankRows r l) : row.holder ∈ l := by
  induction l generalizing r with
  | nil => simp [rankRows] at hm
  | cons h t ih =>
    rw [rankRows, List.mem_cons] at hm
    rcases hm with rfl | hm
    · exact List.mem_cons_self _ _
    · exact List.mem_cons_of_mem _ (ih (r + 1) hm)

theorem percentileRow_holder_mem (sorted : List Holder) (p : Nat)
    (hne : sorted ≠ []) : (percentileRow sorted p).holder ∈ sorted := by
  have hlen : 1 ≤ sorted.length := List.length_pos.mpr hne
  have hpos := percentilePosition_le sorted.length p hlen
  have hlt : percentilePosition sorted.length p < sorted.length := by omega
  show sorted.getD (percentilePosition sorted.length p) defaultHolder ∈ sorted
  rw [List.getD_eq_getElem?_getD, List.getElem?_eq_getElem hlt, Option.getD_some]
  exact List.getElem_mem _

/-- Every row the engine emits carries a holder taken from the input list. -/
theorem engine_row_holder_mem (holders : List Holder) (row : StatRow)
    (hrow : row ∈ (calculate_top_holders_and_percentiles holders).1 ∨
            row ∈ (calculate_top_holders_and_percentiles holders).2) :
    row.holder ∈ holders := by
  cases hemp : holders.isEmpty with
  | true =>
    rw [calculate_top_holders_and_percentiles] at hrow
    rw [hemp] at hrow
    simp at hrow
  | false =>
    have hne : holders ≠ [] := by
      intro hcontra
      rw [hcontra] at hemp
      simp at hemp
    have hslen : (sortHoldersDesc holders).length = holders.length :=
      List.length_insertionSort holderGE holders
    have hsne : sortHoldersDesc holders ≠ [] := by
      rw [← List.length_pos, hslen]
      exact List.length_pos.mpr hne
    rw [calculate_top_holders_and_percentiles] at hrow
    rw [hemp] at hrow
    simp only [Bool.false_eq_true, if_false] at hrow
    have hmem : row.holder ∈ sortHoldersDesc holders := by
      rcases hrow with hrow | hrow
      · exact List.mem_of_mem_take (rankRows_holder_mem 1 _ row hrow)
      · obtain ⟨p, hp1, hp99, rfl⟩ := mem_percentileRows _ row hrow
        exact percentileRow_holder_mem _ p hsne
    exact ((List.perm_insertionSort holderGE holders).mem_iff).mp hmem

end TokenHoldings

namespace Refresh

open TokenHoldings

theorem swapHoldings_holdings (db : DB) (tok : String) (rows : List Holding) :
    (swapHoldings db tok rows).holdings =
      (db.holdings.filter (fun h => decide (¬ h.token_symbol = tok))) ++ rows := rfl

theorem newHoldings_account (tok : String) (batch : Nat) (tops percs : List StatRow)
    (h : Holding) (hm : h ∈ newHoldings tok batch tops percs) :
    ∃ row, (row ∈ tops ∨ row ∈ percs) ∧ h.account_id = row.holder.account_id := by
  rw [newHoldings, List.mem_append] at hm
  rcases hm with hm | hm <;> rw [List.mem_map] at hm <;> obtain ⟨row, hr, rfl⟩ := hm
  · exact ⟨row, Or.inl hr, rfl⟩
  · exact ⟨row, Or.inr hr, rfl⟩

theorem newHoldings_length (tok : String) (batch : Nat) (tops percs : List StatRow) :
    (newHoldings tok batch tops percs).length = tops.length + percs.length := by
  simp [newHoldings]

/-- The success path of `refresh_token_data`: the run reports `True` and the
final committed holder table is the old table minus the token's rows plus the
freshly computed batch. -/
theorem refresh_success_run (db0 : DB) (tok tid : String) (decimals : Nat)
    (pages : List (Option Page)) (batch : Nat)
    (hidle : ((findMeta db0 tok).map (fun x => x.refresh_in_progress)).getD false = false)
    (hsome : (fetch_token_holders decimals pages).isEmpty = false) :
    (refresh_token_data db0 tok tid decimals pages batch false).ok = true ∧
    (refresh_token_data db0 tok tid decimals pages batch false).final.holdings =
      (db0.holdings.filter (fun h => decide (¬ h.token_symbol = tok))) ++
        newHoldings tok batch
          (calculate_top_holders_and_percentiles (fetch_token_holders decimals pages)).1
          (calculate_top_holders_and_percentiles (fetch_token_holders decimals pages)).2 := by
  rw [refresh_token_data, if_neg (by rw [hidle]; exact Bool.false_ne_true)]
  simp only [hsome, Bool.false_eq_true, if_false]
  refine ⟨?_, ?_⟩
  · trivial
  · simp only [addLog_holdings, putMeta_holdings, swapHoldings_holdings]

/-- C3 counterexample: with the scripted responses `pagesMidFail` (page 1
succeeds and advertises a `next` cursor, page 2's request fails after
retries), the fetch silently stops, the refresh reports success, and the
store receives a non-empty holder set computed from page 1 alone — a partial
page set is persisted. -/
theorem partial_prefix_persisted_counterexample :
    (refresh_token_data emptyDB "TOK" "0.0.1" 2 pagesMidFail 7 false).ok = true ∧
    (refresh_token_data emptyDB "TOK" "0.0.1" 2 pagesMidFail 7 false).final.holdings ≠ [] ∧
    (∀ h ∈ (refresh_token_data emptyDB "TOK" "0.0.1" 2 pagesMidFail 7 false).final.holdings,
      h.account_id = "0.0.100" ∨ h.account_id = "0.0.101") := by
  have hidle :
      ((findMeta emptyDB "TOK").map (fun x => x.refresh_in_progress)).getD false = false := by
    decide
  have hsome : (fetch_token_holders 2 pagesMidFail).isEmpty = false := by decide
  obtain ⟨hok, hH⟩ := refresh_success_run emptyDB "TOK" "0.0.1" 2 pagesMidFail 7 hidle hsome
  have hfne : fetch_token_holders 2 pagesMidFail ≠ [] := by
    intro hc
    rw [hc] at hsome
    simp at hsome
  refine ⟨hok, ?_, ?_⟩
  · rw [hH]
    intro hcontra
    have hlen := congrArg List.length hcontra
    rw [List.length_append, newHoldings_length,
      calc_perc_length _ hfne] at hlen
    simp at hlen
  · intro h hm
    rw [hH] at hm
    rw [show emptyDB.holdings = [] from rfl, List.filter_nil, List.nil_append] at hm
    obtain ⟨row, hr, heq⟩ := newHoldings_account _ _ _ _ h hm
    have hmem := engine_row_holder_mem (fetch_token_holders 2 pagesMidFail) row hr
    rw [heq]
    have hacc : ∀ x ∈ fetch_token_holders 2 pagesMidFail,
        x.account_id = "0.0.100" ∨ x.account_id = "0.0.101" := by decide
    exact hacc row.holder hmem

end Refresh
